import Mathlib

/-!
Verification of the JSON-schema compressor of this repository.

The compressor lives in several near-duplicate TypeScript modules:
  * `src/unnamed/part_002` — the richest encoder (`escapeXml`,
    `mergeAllOfProperties`, `jsonSchemaToXml`, `getCompactType` with
    `const`/`allOf`/tuple/constraint support); embedded below as
    namespace `SchemaFull`.
  * `src/unnamed/part_004` — the encoder variant that also carries the
    token metrics (`estimateTokens`, `compressSchemaWithMetrics`,
    `compressToolSchemas`); embedded below as namespace `SchemaMetrics`.
  * `src/unnamed/part_003` / `src/unnamed/part_005` — earlier, poorer
    variants of the same functions (not needed by the statements below).

The TypeScript functions are dynamically typed and can throw (e.g.
`prop.const.toString()` on a `null` const).  They are therefore embedded
over a dynamic value type `JValue`; a thrown `TypeError` is modelled as
`none` of an `Option` result.  Recursive functions take an explicit fuel
argument (structural recursion on the fuel, so everything evaluates by
`decide`/`rfl`); the exported wrappers instantiate the fuel with `jsize`
of the argument, which always suffices because every recursive call of
the source strictly descends into the value.
-/

/-- A dynamic JavaScript value: `undef` is JavaScript `undefined` (also
used for an absent object field), `num` keeps to the integer numbers
that the repository's schemas use, `obj` is an object literal with its
fields in insertion order. -/
inductive JValue where
  | null
  | undef
  | bool (b : Bool)
  | num (n : Int)
  | str (s : String)
  | arr (elems : List JValue)
  | obj (fields : List (String × JValue))

mutual

/-- Size of a dynamic value, used as fuel for the recursive embeddings. -/
def jsize : JValue → Nat
  | .arr l => jsizeList l + 1
  | .obj fs => jsizeFields fs + 1
  | _ => 1

def jsizeList : List JValue → Nat
  | [] => 0
  | v :: vs => jsize v + jsizeList vs

def jsizeFields : List (String × JValue) → Nat
  | [] => 0
  | (_, v) :: vs => 1 + jsize v + jsizeFields vs

end

/-- JavaScript truthiness. -/
def truthy : JValue → Bool
  | .null => false
  | .undef => false
  | .bool b => b
  | .num n => n != 0
  | .str s => s ≠ ""
  | _ => true

def isUndef : JValue → Bool
  | .undef => true
  | _ => false

/-- `Array.isArray`. -/
def isArrB : JValue → Bool
  | .arr _ => true
  | _ => false

/-- Strict equality `v === "s"` against a string literal. -/
def isStrEq (v : JValue) (s : String) : Bool :=
  match v with
  | .str t => t = s
  | _ => false

def arrElems : JValue → List JValue
  | .arr l => l
  | _ => []

/-- Named-field access `v.k` on a value that is known to be an object or
an array (the sources only reach it behind their object guards); absent
fields read as `undefined`, and arrays/primitives have none of the
schema field names as own properties. -/
def field (v : JValue) (k : String) : JValue :=
  match v with
  | .obj fs => ((fs.find? (fun e => e.1 = k)).map Prod.snd).getD .undef
  | _ => .undef

mutual

/-- JavaScript `String(v)` conversion (total). -/
def jsStr : JValue → String
  | .null => "null"
  | .undef => "undefined"
  | .bool b => cond b "true" "false"
  | .num n => toString n
  | .str s => s
  | .arr l => String.intercalate "," (jsStrElems l)
  | .obj _ => "[object Object]"

/-- `Array.prototype.toString` renders `null`/`undefined` elements as
empty strings. -/
def jsStrElems : List JValue → List String
  | [] => []
  | .null :: vs => "" :: jsStrElems vs
  | .undef :: vs => "" :: jsStrElems vs
  | v :: vs => jsStr v :: jsStrElems vs

end

/-- JavaScript `v.toString()`: a `TypeError` (`none`) on `null` and
`undefined`, otherwise the `String(v)` conversion. -/
def jsToStr : JValue → Option String
  | .null => none
  | .undef => none
  | v => some (jsStr v)

/-- Substring occurrence test on character lists. -/
def listContainsSub : List Char → List Char → Bool
  | l, sub =>
    sub.isPrefixOf l ||
      match l with
      | [] => false
      | _ :: t => listContainsSub t sub

/-- `String.prototype.includes`. -/
def strIncludes (s sub : String) : Bool :=
  listContainsSub s.data sub.data

/-- `required.includes(key)`: arrays use SameValueZero membership (only
a string element can equal the string key), strings do a substring
test, and every other receiver has no `includes` method and throws. -/
def jsIncludes (v : JValue) (key : String) : Option Bool :=
  match v with
  | .arr l => some (l.any (fun e => isStrEq e key))
  | .str s => some (strIncludes s key)
  | _ => none

/-- Enumerable own string-keyed entries, as seen by `Object.entries`,
`Object.keys` and `Object.assign`: objects list their fields, arrays
and strings expose their indices, primitives expose nothing. -/
def entriesOf : JValue → List (String × JValue)
  | .obj fs => fs
  | .arr l => l.enum.map (fun p => (toString p.1, p.2))
  | .str s => s.data.enum.map (fun p => (toString p.1, .str (String.singleton p.2)))
  | _ => []

/-- `Object.keys(v).length`. -/
def keysCount (v : JValue) : Nat := (entriesOf v).length

/-- One step of `Object.assign`: an existing key is overwritten in
place (it keeps its original position), a new key is appended. -/
def insertAssign (acc : List (String × JValue)) (e : String × JValue) :
    List (String × JValue) :=
  if acc.any (fun x => x.1 = e.1) then
    acc.map (fun x => if x.1 = e.1 then e else x)
  else acc ++ [e]

def assignEntries (acc : List (String × JValue)) (es : List (String × JValue)) :
    List (String × JValue) :=
  es.foldl insertAssign acc

/-- First-match lookup in a field list (JavaScript property read on an
object without duplicate keys). -/
def lookupVal (es : List (String × JValue)) (k : String) : Option JValue :=
  (es.find? (fun e => e.1 = k)).map Prod.snd

/-- The five sequential global replaces of `escapeXml`
(`src/unnamed/part_002` lines 43-50, textually identical in
`src/unnamed/part_004`): since no replacement string contains a
character that a later stage replaces, their composition is this
character-wise substitution. -/
def escapeChar (c : Char) : String :=
  if c = '&' then "&amp;"
  else if c = '<' then "&lt;"
  else if c = '>' then "&gt;"
  else if c = '"' then "&quot;"
  else if c = '\'' then "&apos;"
  else String.singleton c

def escapeXml (s : String) : String :=
  String.mk ((s.data.map (fun c => (escapeChar c).data)).flatten)

/-! JSON.stringify(·, null, 2), as used by both metrics wrappers. -/

def hexDigit (n : Nat) : Char :=
  if n < 10 then Char.ofNat (48 + n) else Char.ofNat (87 + n)

def jsonEscapeChar (c : Char) : String :=
  if c = '"' then "\\\""
  else if c = '\\' then "\\\\"
  else if c = '\x08' then "\\b"
  else if c = '\x0c' then "\\f"
  else if c = '\n' then "\\n"
  else if c = '\r' then "\\r"
  else if c = '\t' then "\\t"
  else if c.toNat < 32 then
    "\\u00" ++ String.mk [hexDigit (c.toNat / 16), hexDigit (c.toNat % 16)]
  else String.singleton c

def jsonQuote (s : String) : String :=
  "\"" ++ String.join (s.data.map jsonEscapeChar) ++ "\""

/-- Indentation of `2 * n` spaces. -/
def pad (n : Nat) : String := String.mk (List.replicate (2 * n) ' ')

/-- `JSON.stringify(v, null, 2)` at indentation depth `ind`; `none` is
JavaScript's `undefined` result (an `undefined` object field is
skipped, an `undefined` array element prints as `null`). -/
def jstrF : Nat → Nat → JValue → Option String
  | 0, _, _ => none
  | f + 1, ind, v =>
    match v with
    | .undef => none
    | .null => some "null"
    | .bool b => some (cond b "true" "false")
    | .num n => some (toString n)
    | .str s => some (jsonQuote s)
    | .arr [] => some "[]"
    | .arr l =>
      some ("[\n" ++
        String.intercalate ",\n"
          (l.map (fun x => pad (ind + 1) ++ ((jstrF f (ind + 1) x).getD "null"))) ++
        "\n" ++ pad ind ++ "]")
    | .obj fs =>
      let kept := fs.filterMap (fun e =>
        (jstrF f (ind + 1) e.2).map (fun sv =>
          pad (ind + 1) ++ jsonQuote e.1 ++ ": " ++ sv))
      if kept.isEmpty then some "\x7b\x7d"
      else some ("\x7b\n" ++ String.intercalate ",\n" kept ++ "\n" ++ pad ind ++ "\x7d")

def jsonStringify (v : JValue) : Option String := jstrF (jsize v) 0 v

/-! Token estimation helpers of `src/unnamed/part_004` lines 158-182. -/

def isWsChar (c : Char) : Bool :=
  c = ' ' || c = '\t' || c = '\n' || c = '\r' || c = '\x0b' || c = '\x0c'

/-- Number of maximal non-whitespace runs, i.e.
`text.split(/\s+/).filter((w) => w.length > 0).length`. -/
def countWordsAux : List Char → Bool → Nat
  | [], _ => 0
  | c :: cs, inWord =>
    if isWsChar c then countWordsAux cs false
    else (if inWord then 0 else 1) + countWordsAux cs true

def wordCount (t : String) : Nat := countWordsAux t.data false

/-- `(text.match(/[{}[\],:]/g) || []).length`. -/
def jsonPunctCount (t : String) : Nat :=
  (t.data.filter (fun c =>
    c = '\x7b' || c = '\x7d' || c = '[' || c = ']' || c = ',' || c = ':')).length

/-- A sequential JavaScript `.map` whose body may throw: the first
exception aborts the whole call. -/
def optMapM {a b : Type} (g : a → Option b) : List a → Option (List b)
  | [] => some []
  | x :: xs => (g x).bind (fun y => (optMapM g xs).map (fun ys => y :: ys))

/-- `v.map(g)`: only an array receiver has `.map`; any other receiver
throws. -/
def jsArrayMapM {b : Type} (g : JValue → Option b) (v : JValue) : Option (List b) :=
  if isArrB v then optMapM g (arrElems v) else none

/-- JavaScript `Math.round (p / q)` for `q > 0` (rounding half up, also
for negatives): `⌊p/q + 1/2⌋ = fdiv (2p + q) (2q)`. -/
def jsRound (p q : Int) : Int := Int.fdiv (2 * p + q) (2 * q)

/-- JavaScript `Math.ceil (n / d)` on naturals. -/
def natCeilDiv (n d : Nat) : Nat := (n + d - 1) / d

/-- The `required` value resolved by both encoders: the schema's
`required` field if truthy, else an empty array. -/
def requiredOf (schema : JValue) : JValue :=
  if truthy (field schema "required") then field schema "required" else .arr []

namespace SchemaFull

/-!
Embedding of `src/unnamed/part_002`: `escapeXml` (shared, above),
`mergeAllOfProperties`, `jsonSchemaToXml` and `getCompactType`.
-/

/-- The `mergeAllOfProperties` of `src/unnamed/part_002` lines 57-67:
`Object.assign` of every member's truthy `properties` into one record;
reading `.properties` off a `null`/`undefined` member throws. -/
def mergeAllOfStep (allOf : List JValue) (acc : List (String × JValue)) :
    Option (List (String × JValue)) :=
  match allOf with
  | [] => some acc
  | m :: rest =>
    match m with
    | .null => none
    | .undef => none
    | _ =>
      if truthy (field m "properties") then
        mergeAllOfStep rest (assignEntries acc (entriesOf (field m "properties")))
      else mergeAllOfStep rest acc

def mergeAllOfProperties (allOf : List JValue) : Option (List (String × JValue)) :=
  mergeAllOfStep allOf []

/-- Array-constraint suffix of the array branch (lines 149-153):
`{min..max}` when `minItems` or `maxItems` is defined, with falsy
`minItems` defaulting to `0` and falsy `maxItems` to `"∞"`. -/
def arrayConstraintSuffix (prop : JValue) : String :=
  if ¬ isUndef (field prop "minItems") || ¬ isUndef (field prop "maxItems") then
    let mn := if truthy (field prop "minItems") then field prop "minItems" else .num 0
    let mx := if truthy (field prop "maxItems") then field prop "maxItems" else .str "∞"
    "\x7b" ++ jsStr mn ++ ".." ++ jsStr mx ++ "\x7d"
  else ""

/-- Format dispatch of the `"string"` switch case (lines 240-246). -/
def stringBaseType (prop : JValue) : String :=
  let f := field prop "format"
  if isStrEq f "date" then "date"
  else if isStrEq f "date-time" then "datetime"
  else if isStrEq f "email" then "email"
  else if isStrEq f "uri" || isStrEq f "url" then "url"
  else if isStrEq f "uuid" then "uuid"
  else if isStrEq f "ipv4" then "ipv4"
  else if isStrEq f "ipv6" then "ipv6"
  else "string"

/-- `.length` when the receiver has one (strings and arrays): a missing
length makes every `> / <=` comparison with a number false. -/
def lengthNum : JValue → Option Nat
  | .str s => some s.length
  | .arr l => some l.length
  | _ => none

/-- `prop.pattern.slice(0, 10)`; only reachable for receivers whose
`.length` compared `> 10`, i.e. strings and arrays. -/
def jsSlice10 : JValue → JValue
  | .str s => .str (String.mk (s.data.take 10))
  | .arr l => .arr (l.take 10)
  | v => v

/-- The `/pattern/` constraint (lines 252-255): the pattern is truncated
to its first 10 characters, and is NOT passed through `escapeXml`. -/
def patternConstraint (p : JValue) : String :=
  let short :=
    match lengthNum p with
    | some n => if n > 10 then jsSlice10 p else p
    | none => p
  "/" ++ jsStr short ++ "/"

/-- Length/pattern constraint list of the string case (lines 249-255). -/
def stringConstraints (prop : JValue) : List String :=
  (if ¬ isUndef (field prop "minLength") then ["≥" ++ jsStr (field prop "minLength")] else []) ++
  (if ¬ isUndef (field prop "maxLength") then ["≤" ++ jsStr (field prop "maxLength")] else []) ++
  (if truthy (field prop "pattern") then [patternConstraint (field prop "pattern")] else [])

/-- The `"string"` switch case (lines 236-264): base/format token,
constraint suffix, then an escaped, quoted default. `default.toString()`
throws on a `null` default. -/
def stringCase (prop : JValue) : Option String :=
  let cs := stringConstraints prop
  let finalType :=
    if cs.length > 0 then stringBaseType prop ++ "(" ++ String.intercalate "," cs ++ ")"
    else stringBaseType prop
  if ¬ isUndef (field prop "default") then
    (jsToStr (field prop "default")).map (fun d => finalType ++ "=\"" ++ escapeXml d ++ "\"")
  else some finalType

/-- The `"number"`/`"integer"` switch case (lines 266-278); the default
is interpolated (`String(...)`), so it never throws. -/
def numberCase (prop : JValue) : String :=
  let cs :=
    (if ¬ isUndef (field prop "minimum") then ["≥" ++ jsStr (field prop "minimum")] else []) ++
    (if ¬ isUndef (field prop "maximum") then ["≤" ++ jsStr (field prop "maximum")] else []) ++
    (if ¬ isUndef (field prop "multipleOf") then ["×" ++ jsStr (field prop "multipleOf")] else [])
  let finalType :=
    if cs.length > 0 then "number(" ++ String.intercalate "," cs ++ ")" else "number"
  if ¬ isUndef (field prop "default") then finalType ++ "=" ++ jsStr (field prop "default")
  else finalType

/-- The `"boolean"` switch case (lines 280-286). -/
def booleanCase (prop : JValue) : String :=
  if ¬ isUndef (field prop "default") then "boolean=" ++ jsStr (field prop "default")
  else "boolean"

/-- `v.length <= 3` in JavaScript: only strings and arrays have a
`.length`; a comparison against `undefined` is false. -/
def lenLE3 : JValue → Bool
  | .arr l => l.length ≤ 3
  | .str s => s.length ≤ 3
  | _ => false

/-- `${v.length}` interpolation. -/
def lenStr : JValue → String
  | .arr l => toString l.length
  | .str s => toString s.length
  | _ => "undefined"

/-- Body of one `oneOf`/`anyOf` alternative (lines 204-228), reached
when the alternative is not `null`/`undefined` (reading `.enum` off
those throws).  A truthy `enum` whose `.length` compares `<= 3` is
`.map`ped — which throws unless it is an array; a truthy `enum` whose
`.length` comparison fails renders `enum(<length>)` by interpolation. -/
def unionPartBody (enc : JValue → Option String) (p : JValue) : Option String :=
  if truthy (field p "enum") then
    (if lenLE3 (field p "enum") then
      (jsArrayMapM (fun v => (jsToStr v).map escapeXml) (field p "enum")).map (fun ss =>
        "enum(" ++ String.intercalate "|" ss ++ ")")
    else some ("enum(" ++ lenStr (field p "enum") ++ ")"))
  else if isStrEq (field p "type") "number" || isStrEq (field p "type") "integer" then
    let cs :=
      (if ¬ isUndef (field p "minimum") then ["≥" ++ jsStr (field p "minimum")] else []) ++
      (if ¬ isUndef (field p "maximum") then ["≤" ++ jsStr (field p "maximum")] else [])
    some (if cs.length > 0 then "number(" ++ String.intercalate "," cs ++ ")" else "number")
  else if isStrEq (field p "type") "object" && truthy (field p "properties") then
    let n := keysCount (field p "properties")
    some (if n ≤ 2 then "object(" ++ toString n ++ ")" else "object")
  else enc p

/-- One `oneOf`/`anyOf` alternative (lines 203-229). -/
def unionPart (enc : JValue → Option String) (p : JValue) : Option String :=
  match p with
  | .null => none
  | .undef => none
  | _ => unionPartBody enc p

/-- Branch chain of `getCompactType` (`src/unnamed/part_002` lines
128-292) for an object/array argument, parameterised by the encoder
used at the recursive call sites.  The branch order is the source's:
array, const, enum, allOf, object, oneOf/anyOf, then the basic-type
switch. -/
def goBody (rec : JValue → Option String) (prop : JValue) : Option String :=
  if isStrEq (field prop "type") "array" then
    let items := field prop "items"
    (if truthy items then
      if isArrB items then
        (optMapM rec (arrElems items)).map (fun ts =>
          "tuple[" ++ String.intercalate "," ts ++ "]")
      else (rec items).map (fun t => "array[" ++ t ++ "]")
    else some "array[any]").map (fun t => t ++ arrayConstraintSuffix prop)
  else if ¬ isUndef (field prop "const") then
    (jsToStr (field prop "const")).map (fun s => "const(" ++ escapeXml s ++ ")")
  else if isArrB (field prop "enum") then
    let l := arrElems (field prop "enum")
    if l.length ≤ 3 then
      (optMapM jsToStr l).map (fun ss =>
        "enum(" ++ String.intercalate "|" (ss.map escapeXml) ++ ")")
    else some "enum"
  else if isArrB (field prop "allOf") then
    (mergeAllOfProperties (arrElems (field prop "allOf"))).bind (fun merged =>
      if merged.length > 0 then
        (optMapM (fun e => (rec e.2).map (fun t => escapeXml e.1 ++ ":" ++ t)) merged).map
          (fun ns => "merged\x7b" ++ String.intercalate "," ns ++ "\x7d")
      else some "merged")
  else if isStrEq (field prop "type") "object" then
    if truthy (field prop "properties") && keysCount (field prop "properties") ≤ 2 then
      (optMapM (fun e => (rec e.2).map (fun t => escapeXml e.1 ++ ":" ++ t))
          (entriesOf (field prop "properties"))).map
        (fun ns => "object\x7b" ++ String.intercalate "," ns ++ "\x7d")
    else some "object"
  else if truthy (field prop "oneOf") || truthy (field prop "anyOf") then
    let ua :=
      if truthy (field prop "oneOf") then field prop "oneOf"
      else if truthy (field prop "anyOf") then field prop "anyOf"
      else .arr []
    (jsArrayMapM (fun p => unionPart rec p) ua).map (String.intercalate "|")
  else if isStrEq (field prop "type") "string" then stringCase prop
  else if isStrEq (field prop "type") "number" || isStrEq (field prop "type") "integer" then
    some (numberCase prop)
  else if isStrEq (field prop "type") "boolean" then some (booleanCase prop)
  else if isStrEq (field prop "type") "null" then some "null"
  else some (if truthy (field prop "type") then jsStr (field prop "type") else "any")

/-- Fueled `getCompactType`: the non-object guard returns `"any"`,
otherwise `goBody` runs with the one-step-smaller fuel for recursion. -/
def go : Nat → JValue → Option String
  | 0, _ => none
  | f + 1, prop =>
    match prop with
    | .null | .undef | .bool _ | .num _ | .str _ => some "any"
    | _ => goBody (fun x => go f x) prop

/-- `getCompactType` of `src/unnamed/part_002`; the fuel `jsize prop`
always suffices since every recursive call of the source descends
strictly into the value. -/
def getCompactType (prop : JValue) : Option String := go (jsize prop) prop

/-- Property-map branch of `jsonSchemaToXml` (lines 107-120), also the
fall-through target of an `allOf` that merges to nothing. -/
def propsBranch (schema : JValue) : Option String :=
  if ¬ truthy (field schema "properties") || keysCount (field schema "properties") = 0 then
    some "<schema></schema>"
  else
    (optMapM (fun e =>
        (jsIncludes (requiredOf schema) e.1).bind (fun isReq =>
          (getCompactType e.2).map (fun t =>
            escapeXml e.1 ++ (if isReq then "*" else "?") ++ ":" ++ t)))
      (entriesOf (field schema "properties"))).map
      (fun params => "<schema>" ++ String.intercalate ", " params ++ "</schema>")

/-- Root branch chain of `jsonSchemaToXml` (lines 79-120) for an
object/array schema: array/tuple bypass, root `allOf` merge, then the
property-map branch. -/
def rootBody (schema : JValue) : Option String :=
  if isStrEq (field schema "type") "array" && truthy (field schema "items") then
    if isArrB (field schema "items") then
      (optMapM getCompactType (arrElems (field schema "items"))).map (fun ts =>
        "<schema>tuple[" ++ String.intercalate "," ts ++ "]</schema>")
    else
      (getCompactType (field schema "items")).map (fun t =>
        "<schema>array[" ++ t ++ "]</schema>")
  else if isArrB (field schema "allOf") then
    (mergeAllOfProperties (arrElems (field schema "allOf"))).bind (fun merged =>
      if merged.length > 0 then
        (optMapM (fun e =>
            (jsIncludes (requiredOf schema) e.1).bind (fun isReq =>
              (getCompactType e.2).map (fun t =>
                escapeXml e.1 ++ (if isReq then "*" else "?") ++ ":" ++ t))) merged).map
          (fun params => "<schema>merged\x7b" ++ String.intercalate ", " params ++ "\x7d</schema>")
      else propsBranch schema)
  else propsBranch schema

/-- `jsonSchemaToXml` of `src/unnamed/part_002` lines 74-121: non-object
guard, then the root branch chain. -/
def jsonSchemaToXml (schema : JValue) : Option String :=
  match schema with
  | .null | .undef | .bool _ | .num _ | .str _ => some "<schema></schema>"
  | _ => rootBody schema

end SchemaFull

namespace SchemaMetrics

/-!
Embedding of `src/unnamed/part_004`: the mid encoder (`jsonSchemaToXml`,
`getCompactType` without `const`/`allOf`/tuple/constraint support) and
the metrics layer (`estimateTokens`, `compressSchemaWithMetrics`,
`compressToolSchemas`).
-/

/-- One entry of `prop.enum.map(escapeXml)` (line 100): `escapeXml`
calls `.replace` on its argument, so a non-string entry throws. -/
def enumEscEntry : JValue → Option String
  | .str s => some (escapeXml s)
  | _ => none

/-- One entry of `unionArray.map((p) => p.type)` (line 121): member
access on a `null`/`undefined` alternative throws. -/
def unionTypeOf : JValue → Option JValue
  | .null => none
  | .undef => none
  | p => some (field p "type")

/-- Format dispatch of the `"string"` switch case (lines 131-139). -/
def stringFormatType (prop : JValue) : String :=
  let f := field prop "format"
  if isStrEq f "date" then "date"
  else if isStrEq f "date-time" then "datetime"
  else if isStrEq f "email" then "email"
  else if isStrEq f "uri" || isStrEq f "url" then "url"
  else if isStrEq f "uuid" then "uuid"
  else if isStrEq f "ipv4" then "ipv4"
  else if isStrEq f "ipv6" then "ipv6"
  else "string"

/-- Fueled body of `getCompactType` (`src/unnamed/part_004` lines
82-150): non-object guard, array, enum, object, oneOf/anyOf, switch.
The enum branch applies `escapeXml` directly to each entry
(`prop.enum.map(escapeXml)`), so a non-string entry has no `.replace`
and throws; a `null`/`undefined` union alternative throws on `p.type`. -/
def go : Nat → JValue → Option String
  | 0, _ => none
  | f + 1, prop =>
    match prop with
    | .null | .undef | .bool _ | .num _ | .str _ => some "any"
    | _ =>
      if isStrEq (field prop "type") "array" then
        if truthy (field prop "items") then
          (go f (field prop "items")).map (fun t => "array[" ++ t ++ "]")
        else some "array[any]"
      else if isArrB (field prop "enum") then
        let l := arrElems (field prop "enum")
        if l.length ≤ 3 then
          (optMapM enumEscEntry l).map (fun ss => "enum(" ++ String.intercalate "|" ss ++ ")")
        else some "enum"
      else if isStrEq (field prop "type") "object" then
        if truthy (field prop "properties") && keysCount (field prop "properties") ≤ 2 then
          (optMapM (fun e => (go f e.2).map (fun t => escapeXml e.1 ++ ":" ++ t))
              (entriesOf (field prop "properties"))).map
            (fun ns => "object\x7b" ++ String.intercalate "," ns ++ "\x7d")
        else some "object"
      else if truthy (field prop "oneOf") || truthy (field prop "anyOf") then
        let ua :=
          if truthy (field prop "oneOf") then field prop "oneOf"
          else if truthy (field prop "anyOf") then field prop "anyOf"
          else .arr []
        (jsArrayMapM unionTypeOf ua).map (fun (ts : List JValue) =>
          let kept := (ts.filter truthy).map jsStr
          if kept.length > 0 then String.intercalate "|" kept else "union")
      else if isStrEq (field prop "type") "string" then some (stringFormatType prop)
      else if isStrEq (field prop "type") "number" || isStrEq (field prop "type") "integer" then
        some "number"
      else if isStrEq (field prop "type") "boolean" then some "boolean"
      else if isStrEq (field prop "type") "null" then some "null"
      else some (if truthy (field prop "type") then jsStr (field prop "type") else "any")

/-- `getCompactType` of `src/unnamed/part_004`. -/
def getCompactType (prop : JValue) : Option String := go (jsize prop) prop

/-- Property-map branch of `jsonSchemaToXml` (lines 61-74). -/
def propsBranch (schema : JValue) : Option String :=
  if ¬ truthy (field schema "properties") || keysCount (field schema "properties") = 0 then
    some "<schema></schema>"
  else
    (optMapM (fun e =>
        (jsIncludes (requiredOf schema) e.1).bind (fun isReq =>
          (getCompactType e.2).map (fun t =>
            escapeXml e.1 ++ (if isReq then "*" else "?") ++ ":" ++ t)))
      (entriesOf (field schema "properties"))).map
      (fun params => "<schema>" ++ String.intercalate ", " params ++ "</schema>")

/-- `jsonSchemaToXml` of `src/unnamed/part_004` lines 50-75 (root array
bypass without a tuple case, no root `allOf`). -/
def jsonSchemaToXml (schema : JValue) : Option String :=
  match schema with
  | .null | .undef | .bool _ | .num _ | .str _ => some "<schema></schema>"
  | _ =>
    if isStrEq (field schema "type") "array" && truthy (field schema "items") then
      (getCompactType (field schema "items")).map (fun t =>
        "<schema>array[" ++ t ++ "]</schema>")
    else propsBranch schema

/-- `estimateTokens` of `src/unnamed/part_004` lines 158-182; the
argument is `none` when the text is JavaScript `undefined` (the falsy
guard returns 0 for it as well as for the empty string).  `ceil(words *
1.3 + jsonTokens * 0.5)` is computed exactly as `ceil((13 * words + 5 *
jsonTokens) / 10)`. -/
def estimateTokens : Option String → Nat
  | none => 0
  | some t =>
    if t = "" then 0
    else if t.length < 20 then natCeilDiv t.length 3
    else natCeilDiv (13 * wordCount t + 5 * jsonPunctCount t) 10

structure SchemaCompressionResult where
  compressed : String
  originalTokens : Nat
  compressedTokens : Nat
  reduction : Int
deriving DecidableEq

/-- A tool descriptor `{ name, inputSchema? }`; an absent `inputSchema`
is JavaScript `undefined`, i.e. `JValue.undef`. -/
structure ToolDescriptor where
  name : String
  inputSchema : JValue

structure CompressedTool where
  name : String
  compressedSchema : String
deriving DecidableEq

structure BatchResult where
  compressedTools : List CompressedTool
  totalReduction : Int
  originalTokens : Nat
  compressedTokens : Nat
deriving DecidableEq

/-- `compressSchemaWithMetrics` of `src/unnamed/part_004` lines 189-208:
the reduction is `Math.round(((o - c) / o) * 100)` when `o > 0 && c <
o`, and `Math.round(0) = 0` otherwise. -/
def compressSchemaWithMetrics (schema : JValue) : Option SchemaCompressionResult :=
  (jsonSchemaToXml schema).map (fun compressed =>
    let originalTokens := estimateTokens (jsonStringify schema)
    let compressedTokens := estimateTokens (some compressed)
    let reduction : Int :=
      if 0 < originalTokens ∧ compressedTokens < originalTokens then
        jsRound (((originalTokens : Int) - compressedTokens) * 100) originalTokens
      else 0
    ⟨compressed, originalTokens, compressedTokens, reduction⟩)

/-- `compressToolSchemas` of `src/unnamed/part_004` lines 215-247: the
running sums of the source's loop are the sums over the per-tool
results. -/
def compressToolSchemas (tools : List ToolDescriptor) : Option BatchResult :=
  (optMapM (fun t =>
      (compressSchemaWithMetrics t.inputSchema).map (fun r => (t.name, r))) tools).map
    (fun rs =>
      let o : Nat := (rs.map (fun p => p.2.originalTokens)).sum
      let c : Nat := (rs.map (fun p => p.2.compressedTokens)).sum
      let tr : Int :=
        if 0 < o ∧ c < o then jsRound (((o : Int) - c) * 100) o else 0
      ⟨rs.map (fun p => ⟨p.1, p.2.compressed⟩), tr, o, c⟩)

end SchemaMetrics

def isNullish : JValue → Bool
  | .null => true
  | .undef => true
  | _ => false

def isStrB : JValue → Bool
  | .str _ => true
  | _ => false

namespace SchemaFull

/-!
A sufficient safety domain for the total-function claim about
`getCompactType`/`jsonSchemaToXml`: inside it, no branch of the source
can reach one of its throwing expressions (`.toString()` on
`null`/`undefined`, `.map`/`.includes` on receivers that lack them,
member access on a `null`/`undefined` `allOf`/`oneOf`/`anyOf` element).
The predicates mirror the branch structure of the functions above.
-/

/-- Safety of the body of one `oneOf`/`anyOf` alternative. -/
def safeUnionPartBody (sf : JValue → Bool) (p : JValue) : Bool :=
  if truthy (field p "enum") then
    (if lenLE3 (field p "enum") then
      isArrB (field p "enum") && (arrElems (field p "enum")).all (fun v => !(isNullish v))
    else true)
  else if isStrEq (field p "type") "number" || isStrEq (field p "type") "integer" then true
  else if isStrEq (field p "type") "object" && truthy (field p "properties") then true
  else sf p

/-- Safety of one `oneOf`/`anyOf` alternative (compare `unionPart`). -/
def safeUnionPart (sf : JValue → Bool) (p : JValue) : Bool :=
  match p with
  | .null => false
  | .undef => false
  | _ => safeUnionPartBody sf p

/-- Safety of the branch chain (compare `goBody`). -/
def safeGoBody (sf : JValue → Bool) (prop : JValue) : Bool :=
  if isStrEq (field prop "type") "array" then
    let items := field prop "items"
    if truthy items then
      if isArrB items then (arrElems items).all (fun x => sf x)
      else sf items
    else true
  else if ¬ isUndef (field prop "const") then !(isNullish (field prop "const"))
  else if isArrB (field prop "enum") then
    let l := arrElems (field prop "enum")
    if l.length ≤ 3 then l.all (fun v => !(isNullish v)) else true
  else if isArrB (field prop "allOf") then
    match mergeAllOfProperties (arrElems (field prop "allOf")) with
    | none => false
    | some merged =>
      if merged.length > 0 then merged.all (fun e => sf e.2) else true
  else if isStrEq (field prop "type") "object" then
    if truthy (field prop "properties") && keysCount (field prop "properties") ≤ 2 then
      (entriesOf (field prop "properties")).all (fun e => sf e.2)
    else true
  else if truthy (field prop "oneOf") || truthy (field prop "anyOf") then
    let ua :=
      if truthy (field prop "oneOf") then field prop "oneOf"
      else if truthy (field prop "anyOf") then field prop "anyOf"
      else .arr []
    isArrB ua && (arrElems ua).all (fun p => safeUnionPart sf p)
  else if isStrEq (field prop "type") "string" then
    isUndef (field prop "default") || !(isNullish (field prop "default"))
  else true

/-- Safety of a property node at a given fuel (compare `go`). -/
def safeGo : Nat → JValue → Bool
  | 0, _ => false
  | f + 1, prop =>
    match prop with
    | .null | .undef | .bool _ | .num _ | .str _ => true
    | _ => safeGoBody (fun x => safeGo f x) prop

/-- Safety of a property node. -/
def safeProp (v : JValue) : Bool := safeGo (jsize v) v

/-- A truthy `required` must be an array or a string for
`required.includes(key)` not to throw. -/
def requiredOk (schema : JValue) : Bool :=
  !(truthy (field schema "required")) || isArrB (field schema "required") ||
    isStrB (field schema "required")

/-- Safety of the property-map branch (compare `propsBranch`). -/
def safePropsBranch (schema : JValue) : Bool :=
  if ¬ truthy (field schema "properties") || keysCount (field schema "properties") = 0 then true
  else requiredOk schema && (entriesOf (field schema "properties")).all (fun e => safeProp e.2)

/-- Safety of the root branch chain (compare `rootBody`). -/
def safeRootBody (schema : JValue) : Bool :=
  if isStrEq (field schema "type") "array" && truthy (field schema "items") then
    if isArrB (field schema "items") then
      (arrElems (field schema "items")).all (fun x => safeProp x)
    else safeProp (field schema "items")
  else if isArrB (field schema "allOf") then
    match mergeAllOfProperties (arrElems (field schema "allOf")) with
    | none => false
    | some merged =>
      if merged.length > 0 then
        requiredOk schema && merged.all (fun e => safeProp e.2)
      else safePropsBranch schema
  else safePropsBranch schema

/-- Safety of a root schema (compare `jsonSchemaToXml`). -/
def safeSchema : JValue → Bool
  | .null | .undef | .bool _ | .num _ | .str _ => true
  | schema => safeRootBody schema

end SchemaFull

/-- Shape of a correctly XML-escaped character list: none of
`< > " '` occurs, and every `&` starts one of the five entity
references emitted by `escapeXml`. -/
def xmlSafe (l : List Char) : Bool :=
  match l with
  | [] => true
  | c :: rest =>
    if c = '&' then
      if ['a', 'm', 'p', ';'].isPrefixOf rest then xmlSafe (rest.drop 4)
      else if ['l', 't', ';'].isPrefixOf rest then xmlSafe (rest.drop 3)
      else if ['g', 't', ';'].isPrefixOf rest then xmlSafe (rest.drop 3)
      else if ['q', 'u', 'o', 't', ';'].isPrefixOf rest then xmlSafe (rest.drop 5)
      else if ['a', 'p', 'o', 's', ';'].isPrefixOf rest then xmlSafe (rest.drop 5)
      else false
    else !(c = '<' || c = '>' || c = '"' || c = '\'') && xmlSafe rest
termination_by l.length
decreasing_by
  all_goals simp [List.length_drop]
  all_goals omega
/-! ## Helper lemmas -/

theorem jsize_pos (v : JValue) : 0 < jsize v := by
  cases v <;> simp [jsize]

theorem optMapM_jsToStr_map_str (vs : List String) :
    optMapM jsToStr (vs.map JValue.str) = some vs := by
  induction vs with
  | nil => rfl
  | cons v vs ih => simp [optMapM, jsToStr, jsStr, ih]

theorem optMapM_enumEscEntry_map_str (vs : List String) :
    optMapM SchemaMetrics.enumEscEntry (vs.map JValue.str) = some (vs.map escapeXml) := by
  induction vs with
  | nil => rfl
  | cons v vs ih => simp [optMapM, SchemaMetrics.enumEscEntry, ih]

/-- Enum dispatch of the full encoder on a string-list enum. -/
theorem full_enum_branch (es : List (String × JValue)) (vs : List String)
    (harr : isStrEq (field (JValue.obj es) "type") "array" = false)
    (hconst : isUndef (field (JValue.obj es) "const") = true)
    (henum : field (JValue.obj es) "enum" = .arr (vs.map .str)) :
    SchemaFull.getCompactType (.obj es) =
      some (if vs.length ≤ 3
        then "enum(" ++ String.intercalate "|" (vs.map escapeXml) ++ ")"
        else "enum") := by
  show SchemaFull.go (jsizeFields es + 1) (.obj es) = _
  simp only [SchemaFull.go, SchemaFull.goBody, harr, hconst, henum]
  by_cases hlen : vs.length ≤ 3 <;>
    simp [hlen, arrElems, isArrB, isUndef, optMapM_jsToStr_map_str]

/-- Enum dispatch of the metrics-variant encoder on a string-list enum. -/
theorem metrics_enum_branch (es : List (String × JValue)) (vs : List String)
    (harr : isStrEq (field (JValue.obj es) "type") "array" = false)
    (henum : field (JValue.obj es) "enum" = .arr (vs.map .str)) :
    SchemaMetrics.getCompactType (.obj es) =
      some (if vs.length ≤ 3
        then "enum(" ++ String.intercalate "|" (vs.map escapeXml) ++ ")"
        else "enum") := by
  show SchemaMetrics.go (jsizeFields es + 1) (.obj es) = _
  simp only [SchemaMetrics.go, harr, henum]
  by_cases hlen : vs.length ≤ 3 <;>
    simp [hlen, arrElems, isArrB, optMapM_enumEscEntry_map_str]

theorem jsIncludes_strList (req : List String) (k : String) :
    jsIncludes (.arr (req.map .str)) k = some (decide (k ∈ req)) := by
  simp only [jsIncludes, Option.some.injEq]
  induction req with
  | nil => simp
  | cons r rs ih =>
    simp only [List.map_cons, List.any_cons, ih, List.mem_cons]
    by_cases hk : r = k
    · subst hk; simp [isStrEq]
    · have hk2 : ¬ k = r := fun h => hk h.symm
      simp [isStrEq, hk, hk2]

/-- Per-property emission with already-resolved required markers. -/
theorem markedOutput (gct : JValue → Option String) (req : List String) :
    ∀ (props : List (String × JValue)) (ts : List String),
      optMapM (fun e => gct e.2) props = some ts →
      optMapM (fun e =>
          (gct e.2).map (fun t =>
            escapeXml e.1 ++ (if e.1 ∈ req then "*" else "?") ++ ":" ++ t)) props =
        some ((props.zip ts).map (fun pe =>
          escapeXml pe.1.1 ++ (if pe.1.1 ∈ req then "*" else "?") ++ ":" ++ pe.2)) := by
  intro props
  induction props with
  | nil =>
    intro ts h
    simp only [optMapM, Option.some.injEq] at h
    subst h
    simp [optMapM]
  | cons a l ih =>
    intro ts h
    simp only [optMapM] at h ⊢
    cases ha : gct a.2 with
    | none => rw [ha] at h; simp at h
    | some t0 =>
      rw [ha] at h
      cases hrest : optMapM (fun e => gct e.2) l with
      | none => rw [hrest] at h; simp at h
      | some ts0 =>
        rw [hrest] at h
        simp at h
        subst h
        simp [ha, ih ts0 hrest]

/-- Expands the per-property emission of the parameter-list branches:
required markers from a string-array `required`, escaped keys, encoded
types. -/
theorem propsOutput (gct : JValue → Option String) (req : List String)
    (props : List (String × JValue)) (ts : List String)
    (h : optMapM (fun e => gct e.2) props = some ts) :
    optMapM (fun e =>
        (jsIncludes (JValue.arr (req.map .str)) e.1).bind (fun isReq =>
          (gct e.2).map (fun t =>
            escapeXml e.1 ++ (if isReq then "*" else "?") ++ ":" ++ t))) props =
      some ((props.zip ts).map (fun pe =>
        escapeXml pe.1.1 ++ (if pe.1.1 ∈ req then "*" else "?") ++ ":" ++ pe.2)) := by
  have hm := markedOutput gct req props ts h
  rw [← hm]
  simp only [jsIncludes_strList, Option.some_bind, decide_eq_true_eq]

theorem lookupVal_map_replace_ne (e : String × JValue) (k : String) (hne : e.1 ≠ k) :
    ∀ acc : List (String × JValue),
      lookupVal (acc.map (fun x => if x.1 = e.1 then e else x)) k = lookupVal acc k := by
  intro acc
  induction acc with
  | nil => simp [lookupVal]
  | cons x xs ih =>
    by_cases hx : x.1 = e.1
    · simp only [List.map_cons, hx, if_true, lookupVal, List.find?]
      have h1 : (e.1 = k) = False := by simp [hne]
      have h2 : (x.1 = k) = False := by simp [hx, hne]
      simp only [h1, h2, decide_False]
      exact ih
    · simp only [List.map_cons, hx, if_false, lookupVal, List.find?]
      by_cases hxk : x.1 = k
      · simp [hxk]
      · simp only [hxk, decide_False]
        exact ih

theorem lookupVal_map_replace_eq (e : String × JValue) :
    ∀ acc : List (String × JValue), acc.any (fun x => x.1 = e.1) = true →
      lookupVal (acc.map (fun x => if x.1 = e.1 then e else x)) e.1 = some e.2 := by
  intro acc
  induction acc with
  | nil => simp
  | cons x xs ih =>
    intro hmem
    by_cases hx : x.1 = e.1
    · simp [lookupVal, List.find?, hx]
    · simp only [List.any_cons, hx, decide_False, Bool.false_or] at hmem
      simp only [List.map_cons, hx, if_false, lookupVal, List.find?]
      by_cases hxk : x.1 = e.1
      · exact absurd hxk hx
      · simp only [hxk, decide_False]
        exact ih hmem

theorem lookupVal_insertAssign (acc : List (String × JValue)) (e : String × JValue)
    (k : String) :
    lookupVal (insertAssign acc e) k = if e.1 = k then some e.2 else lookupVal acc k := by
  unfold insertAssign
  by_cases hmem : acc.any (fun x => x.1 = e.1) = true
  · simp only [hmem, if_true]
    by_cases hk : e.1 = k
    · subst hk
      simp [lookupVal_map_replace_eq e acc hmem]
    · simp [hk, lookupVal_map_replace_ne e k hk acc]
  · simp only [Bool.not_eq_true] at hmem
    simp only [hmem, Bool.false_eq_true, if_false]
    have hnone : lookupVal acc e.1 = none := by
      simp only [lookupVal, Option.map_eq_none']
      apply List.find?_eq_none.mpr
      intro x hx
      have := List.any_eq_false.mp hmem x hx
      simpa using this
    by_cases hk : e.1 = k
    · subst hk
      have hfind : List.find? (fun x => decide (x.1 = e.1)) acc = none :=
        Option.map_eq_none'.mp hnone
      simp [lookupVal, List.find?_append, hfind, List.find?]
    · simp only [hk, if_false, lookupVal, List.find?_append]
      have : List.find? (fun x => x.1 = k) [e] = none := by
        simp [List.find?, hk]
      simp [this]

theorem lookupVal_assignEntries :
    ∀ (es2 : List (String × JValue)) (acc : List (String × JValue)) (k : String),
      (es2.map Prod.fst).Nodup →
      lookupVal (assignEntries acc es2) k = (lookupVal es2 k).or (lookupVal acc k) := by
  intro es2
  induction es2 with
  | nil => intro acc k _; simp [assignEntries, lookupVal]
  | cons e rest ih =>
    intro acc k hnd
    simp only [List.map_cons, List.nodup_cons] at hnd
    have step : assignEntries acc (e :: rest) = assignEntries (insertAssign acc e) rest := rfl
    rw [step, ih (insertAssign acc e) k hnd.2, lookupVal_insertAssign]
    by_cases hk : e.1 = k
    · subst hk
      have hrest : lookupVal rest e.1 = none := by
        simp only [lookupVal, Option.map_eq_none']
        apply List.find?_eq_none.mpr
        intro x hx
        simp only [decide_eq_true_eq]
        intro hxe
        exact hnd.1 (hxe ▸ List.mem_map_of_mem Prod.fst hx)
      have hhead : lookupVal (e :: rest) e.1 = some e.2 := by
        simp [lookupVal, List.find?]
      rw [hrest, hhead]
      simp
    · have hhead : lookupVal (e :: rest) k = lookupVal rest k := by
        simp [lookupVal, List.find?, hk]
      simp [hk, hhead]

theorem sum_map_constNat {α : Type} (c : Nat) :
    ∀ l : List α, (l.map (fun _ => c)).sum = c * l.length := by
  intro l
  induction l with
  | nil => simp
  | cons x xs ih => simp [ih]; ring

theorem cswm_undef :
    SchemaMetrics.compressSchemaWithMetrics .undef =
      some ⟨"<schema></schema>", 0, 6, 0⟩ := by decide

theorem optMapM_undef_tools :
    ∀ ts : List SchemaMetrics.ToolDescriptor, (∀ t ∈ ts, t.inputSchema = JValue.undef) →
      optMapM (fun t =>
          (SchemaMetrics.compressSchemaWithMetrics t.inputSchema).map (fun r => (t.name, r))) ts =
        some (ts.map (fun t =>
          (t.name, (⟨"<schema></schema>", 0, 6, 0⟩ : SchemaMetrics.SchemaCompressionResult)))) := by
  intro ts
  induction ts with
  | nil => intro _; rfl
  | cons t rest ih =>
    intro h
    have ht : t.inputSchema = JValue.undef := h t (List.mem_cons_self t rest)
    have hrest := ih (fun x hx => h x (List.mem_cons_of_mem t hx))
    simp [optMapM, ht, cswm_undef, hrest]

theorem optMapM_pair_split {β : Type} (g : SchemaMetrics.ToolDescriptor → Option β) :
    ∀ (l : List SchemaMetrics.ToolDescriptor) (rs' : List (String × β)),
      optMapM (fun t => (g t).map (fun r => (t.name, r))) l = some rs' →
      ∃ rs, optMapM g l = some rs ∧ rs' = (l.zip rs).map (fun p => (p.1.name, p.2)) := by
  intro l
  induction l with
  | nil =>
    intro rs' h
    simp only [optMapM, Option.some.injEq] at h
    exact ⟨[], rfl, h.symm⟩
  | cons t l ih =>
    intro rs' h
    simp only [optMapM] at h
    cases hg : g t with
    | none => rw [hg] at h; simp at h
    | some r =>
      rw [hg] at h
      cases hrest : optMapM (fun t => (g t).map (fun r => (t.name, r))) l with
      | none => rw [hrest] at h; simp at h
      | some rs0 =>
        rw [hrest] at h
        simp at h
        obtain ⟨rs, hrs, hshape⟩ := ih rs0 hrest
        refine ⟨r :: rs, ?_, ?_⟩
        · simp [optMapM, hg, hrs]
        · subst h
          simp [hshape]

theorem optMapM_length {α β : Type} (g : α → Option β) :
    ∀ (l : List α) (rs : List β), optMapM g l = some rs → rs.length = l.length := by
  intro l
  induction l with
  | nil => intro rs h; simp only [optMapM, Option.some.injEq] at h; subst h; rfl
  | cons a l ih =>
    intro rs h
    simp only [optMapM] at h
    cases hg : g a with
    | none => rw [hg] at h; simp at h
    | some b =>
      rw [hg] at h
      cases hrest : optMapM g l with
      | none => rw [hrest] at h; simp at h
      | some bs =>
        rw [hrest] at h
        simp at h
        subst h
        simp [ih bs hrest]

theorem jsRound_nonneg (p q : Int) (hp : 0 ≤ p) (hq : 0 < q) : 0 ≤ jsRound p q := by
  unfold jsRound
  rw [Int.fdiv_eq_ediv _ (by omega)]
  exact Int.ediv_nonneg (by omega) (by omega)

theorem jsRound_le (p q k : Int) (hq : 0 < q) (h : p ≤ k * q) : jsRound p q ≤ k := by
  unfold jsRound
  rw [Int.fdiv_eq_ediv _ (by omega)]
  by_contra hcon
  push_neg at hcon
  have h2 : k + 1 ≤ (2 * p + q) / (2 * q) := hcon
  have h3 := (Int.le_ediv_iff_mul_le (by omega : (0:Int) < 2 * q)).mp h2
  ring_nf at h3
  nlinarith [h3, h, hq]

theorem jsRound_zero (q : Int) (hq : 0 < q) : jsRound 0 q = 0 := by
  unfold jsRound
  rw [Int.fdiv_eq_ediv _ (by omega)]
  have : 2 * (0:Int) + q = q := by ring
  rw [this]
  exact Int.ediv_eq_zero_of_lt (by omega) (by omega)

/-- The source's guarded reduction equals the spec's clamped rounded
percentage, and lies in `[0, 100]`. -/
theorem reduction_formula (o c : Nat) :
    (if 0 < o ∧ c < o then jsRound (((o:Int) - c) * 100) o else 0) =
      (if 0 < o then jsRound (100 * max 0 ((o : Int) - c)) o else 0) ∧
    0 ≤ (if 0 < o ∧ c < o then jsRound (((o:Int) - c) * 100) o else 0) ∧
    (if 0 < o ∧ c < o then jsRound (((o:Int) - c) * 100) o else 0) ≤ 100 := by
  by_cases ho : 0 < o
  · by_cases hc : c < o
    · have hmax : max 0 ((o:Int) - c) = (o:Int) - c := max_eq_right (by omega)
      have hcomm : ((o:Int) - c) * 100 = 100 * ((o:Int) - c) := by ring
      rw [if_pos (⟨ho, hc⟩ : 0 < o ∧ c < o), if_pos ho, hmax, ← hcomm]
      exact ⟨rfl, jsRound_nonneg _ _ (by omega) (by omega),
        jsRound_le _ _ 100 (by omega) (by omega)⟩
    · have hmax : max 0 ((o:Int) - c) = 0 := max_eq_left (by omega)
      have hneg : ¬ (0 < o ∧ c < o) := fun hconj => hc hconj.2
      rw [if_neg hneg, if_pos ho, hmax]
      refine ⟨?_, le_refl 0, by norm_num⟩
      have h100 : (100 : Int) * 0 = 0 := by ring
      rw [h100, jsRound_zero ((o : Int)) (by omega)]
  · have hno : ¬ (0 < o ∧ c < o) := fun h2 => ho h2.1
    rw [if_neg hno, if_neg ho]
    exact ⟨rfl, le_refl 0, by norm_num⟩

theorem xmlSafe_escapeChar_append (c : Char) (rest : List Char) :
    xmlSafe ((escapeChar c).data ++ rest) = xmlSafe rest := by
  by_cases h1 : c = '&'
  · subst h1
    rw [show (escapeChar '&').data = ['&', 'a', 'm', 'p', ';'] from rfl]
    rw [xmlSafe.eq_def]
    simp [List.isPrefixOf]
  · by_cases h2 : c = '<'
    · subst h2
      rw [show (escapeChar '<').data = ['&', 'l', 't', ';'] from rfl]
      rw [xmlSafe.eq_def]
      simp [List.isPrefixOf]
    · by_cases h3 : c = '>'
      · subst h3
        rw [show (escapeChar '>').data = ['&', 'g', 't', ';'] from rfl]
        rw [xmlSafe.eq_def]
        simp [List.isPrefixOf]
      · by_cases h4 : c = '"'
        · subst h4
          rw [show (escapeChar '"').data = ['&', 'q', 'u', 'o', 't', ';'] from rfl]
          rw [xmlSafe.eq_def]
          simp [List.isPrefixOf]
        · by_cases h5 : c = '\''
          · subst h5
            rw [show (escapeChar '\'').data = ['&', 'a', 'p', 'o', 's', ';'] from rfl]
            rw [xmlSafe.eq_def]
            simp [List.isPrefixOf]
          · have hesc : (escapeChar c).data = [c] := by
              simp [escapeChar, h1, h2, h3, h4, h5, String.singleton]
            rw [hesc, List.cons_append, List.nil_append, xmlSafe.eq_def]
            simp [h1, h2, h3, h4, h5]

theorem xmlSafe_flatten :
    ∀ l : List Char, xmlSafe ((l.map (fun c => (escapeChar c).data)).flatten) = true := by
  intro l
  induction l with
  | nil =>
    show xmlSafe [] = true
    rw [xmlSafe.eq_def]
  | cons c cs ih =>
    rw [List.map_cons, List.flatten_cons, xmlSafe_escapeChar_append]
    exact ih

theorem xmlSafe_escapeXml (s : String) : xmlSafe (escapeXml s).data = true :=
  xmlSafe_flatten s.data

theorem intercalate_singleton (s x : String) : String.intercalate s [x] = x := by
  simp [String.intercalate, String.intercalate.go]

theorem full_string_default_enc (d : String) :
    SchemaFull.getCompactType (.obj [("type", .str "string"), ("default", .str d)]) =
      some ("string" ++ "=\"" ++ escapeXml d ++ "\"") := by
  show SchemaFull.go (jsizeFields _ + 1) _ = _
  simp only [SchemaFull.go, SchemaFull.goBody]
  simp [field, List.find?, isStrEq, isUndef, isArrB, truthy, SchemaFull.stringCase,
    SchemaFull.stringConstraints, SchemaFull.stringBaseType, jsToStr, jsStr]

theorem optMapM_isSome {α β : Type} (g : α → Option β) :
    ∀ l : List α, (∀ a ∈ l, (g a).isSome = true) → (optMapM g l).isSome = true := by
  intro l
  induction l with
  | nil => intro _; rfl
  | cons a l ih =>
    intro h
    have ha := h a (List.mem_cons_self a l)
    have hrest := ih (fun x hx => h x (List.mem_cons_of_mem _ hx))
    cases hga : g a with
    | none => rw [hga] at ha; simp at ha
    | some b =>
      cases hl : optMapM g l with
      | none => rw [hl] at hrest; simp at hrest
      | some bs => simp [optMapM, hga, hl]

theorem jsToStr_isSome (v : JValue) (h : isNullish v = false) : (jsToStr v).isSome = true := by
  cases v <;> simp [isNullish] at h ⊢ <;> simp [jsToStr]

theorem stringCase_isSome (prop : JValue)
    (h : (isUndef (field prop "default") || !(isNullish (field prop "default"))) = true) :
    (SchemaFull.stringCase prop).isSome = true := by
  unfold SchemaFull.stringCase
  by_cases hd : isUndef (field prop "default") = true
  · simp [hd]
  · have hb : isUndef (field prop "default") = false := by
      rw [Bool.not_eq_true] at hd; exact hd
    rw [hb] at h
    simp only [Bool.false_or, Bool.not_eq_true'] at h
    simp [hd, jsToStr_isSome _ h]

theorem unionPartBody_isSome (enc : JValue → Option String) (sf : JValue → Bool)
    (hpt : ∀ x, sf x = true → (enc x).isSome = true) (p : JValue)
    (h : SchemaFull.safeUnionPartBody sf p = true) :
    (SchemaFull.unionPartBody enc p).isSome = true := by
  unfold SchemaFull.safeUnionPartBody at h
  unfold SchemaFull.unionPartBody
  by_cases he : truthy (field p "enum") = true
  · simp only [he, if_true] at h ⊢
    by_cases hl : SchemaFull.lenLE3 (field p "enum") = true
    · simp only [hl, if_true] at h ⊢
      obtain ⟨harr, hall⟩ := (Bool.and_eq_true _ _).mp h
      cases hev : field p "enum" with
      | arr l =>
        simp only [jsArrayMapM, hev, isArrB, if_true, arrElems, Option.isSome_map]
        rw [Option.isSome_map']
        apply optMapM_isSome
        intro a ha
        rw [hev] at hall
        simp only [arrElems, List.all_eq_true] at hall
        simp [Option.isSome_map', jsToStr_isSome a (by simpa using hall a ha)]
      | _ =>
        rw [hev] at harr
        simp [isArrB] at harr
    · simp only [hl, if_false]
      simp
  · simp only [he, if_false] at h ⊢
    by_cases hn : (isStrEq (field p "type") "number" || isStrEq (field p "type") "integer") = true
    · simp [hn]
    · simp only [hn, if_false] at h ⊢
      by_cases ho : (isStrEq (field p "type") "object" && truthy (field p "properties")) = true
      · simp [ho]
      · simp only [ho, if_false] at h ⊢
        exact hpt p h

theorem unionPart_isSome (enc : JValue → Option String) (sf : JValue → Bool)
    (hpt : ∀ x, sf x = true → (enc x).isSome = true) (p : JValue)
    (h : SchemaFull.safeUnionPart sf p = true) :
    (SchemaFull.unionPart enc p).isSome = true := by
  cases p with
  | null => simp [SchemaFull.safeUnionPart] at h
  | undef => simp [SchemaFull.safeUnionPart] at h
  | bool b => exact unionPartBody_isSome enc sf hpt _ h
  | num n => exact unionPartBody_isSome enc sf hpt _ h
  | str s => exact unionPartBody_isSome enc sf hpt _ h
  | arr l => exact unionPartBody_isSome enc sf hpt _ h
  | obj fs => exact unionPartBody_isSome enc sf hpt _ h
theorem goBody_isSome (rec : JValue → Option String) (sf : JValue → Bool)
    (hpt : ∀ x, sf x = true → (rec x).isSome = true) (prop : JValue)
    (h : SchemaFull.safeGoBody sf prop = true) :
    (SchemaFull.goBody rec prop).isSome = true := by
  unfold SchemaFull.safeGoBody at h
  unfold SchemaFull.goBody
  by_cases h1 : isStrEq (field prop "type") "array" = true
  · simp only [h1, if_true] at h ⊢
    rw [Option.isSome_map']
    by_cases h2 : truthy (field prop "items") = true
    · simp only [h2, if_true] at h ⊢
      by_cases h3 : isArrB (field prop "items") = true
      · simp only [h3, if_true] at h ⊢
        rw [Option.isSome_map']
        apply optMapM_isSome
        intro a ha
        exact hpt a ((List.all_eq_true.mp h) a ha)
      · simp only [h3, Bool.false_eq_true, if_false] at h ⊢
        rw [Option.isSome_map']
        exact hpt _ h
    · simp [h2]
  · simp only [h1, Bool.false_eq_true, if_false] at h ⊢
    by_cases h2 : isUndef (field prop "const") = true
    · simp only [h2, not_true, if_false] at h ⊢
      by_cases h3 : isArrB (field prop "enum") = true
      · simp only [h3, if_true] at h ⊢
        by_cases h4 : (arrElems (field prop "enum")).length ≤ 3
        · simp only [h4, if_true] at h ⊢
          rw [Option.isSome_map']
          apply optMapM_isSome
          intro a ha
          exact jsToStr_isSome a (by simpa using (List.all_eq_true.mp h) a ha)
        · simp [h4]
      · simp only [h3, Bool.false_eq_true, if_false] at h ⊢
        by_cases h5 : isArrB (field prop "allOf") = true
        · simp only [h5, if_true] at h ⊢
          cases hm : SchemaFull.mergeAllOfProperties (arrElems (field prop "allOf")) with
          | none => rw [hm] at h; simp at h
          | some merged =>
            rw [hm] at h
            replace h : (if merged.length > 0 then merged.all (fun e => sf e.2) else true) = true := h
            rw [Option.some_bind]
            by_cases h6 : merged.length > 0
            · simp only [h6, if_true] at h ⊢
              rw [Option.isSome_map']
              apply optMapM_isSome
              intro e he
              rw [Option.isSome_map']
              exact hpt e.2 ((List.all_eq_true.mp h) e he)
            · simp [h6]
        · simp only [h5, Bool.false_eq_true, if_false] at h ⊢
          by_cases h7 : isStrEq (field prop "type") "object" = true
          · simp only [h7, if_true] at h ⊢
            by_cases h8 : (truthy (field prop "properties") &&
                decide (keysCount (field prop "properties") ≤ 2)) = true
            · simp only [h8, if_true] at h ⊢
              rw [Option.isSome_map']
              apply optMapM_isSome
              intro e he
              rw [Option.isSome_map']
              exact hpt e.2 ((List.all_eq_true.mp h) e he)
            · simp only [h8, Bool.false_eq_true, if_false] at h ⊢
              simp
          · simp only [h7, Bool.false_eq_true, if_false] at h ⊢
            by_cases h9 : (truthy (field prop "oneOf") || truthy (field prop "anyOf")) = true
            · simp only [h9, if_true] at h ⊢
              obtain ⟨harr, hall⟩ := (Bool.and_eq_true _ _).mp h
              rw [Option.isSome_map']
              cases hua : (if truthy (field prop "oneOf") = true then field prop "oneOf"
                  else if truthy (field prop "anyOf") = true then field prop "anyOf"
                  else JValue.arr []) with
              | arr l =>
                rw [hua] at hall
                simp only [jsArrayMapM, isArrB, if_true, arrElems] at hall ⊢
                apply optMapM_isSome
                intro p hp
                exact unionPart_isSome rec sf hpt p ((List.all_eq_true.mp hall) p hp)
              | _ =>
                rw [hua] at harr
                simp [isArrB] at harr
            · simp only [h9, Bool.false_eq_true, if_false] at h ⊢
              by_cases h10 : isStrEq (field prop "type") "string" = true
              · simp only [h10, if_true] at h ⊢
                exact stringCase_isSome prop h
              · simp only [h10, Bool.false_eq_true, if_false] at h ⊢
                split_ifs <;> simp
    · simp only [h2, Bool.false_eq_true, not_false_iff, if_true] at h ⊢
      rw [Option.isSome_map']
      refine jsToStr_isSome _ ?_
      simpa using h

theorem safeGo_go_isSome : ∀ (f : Nat) (v : JValue),
    SchemaFull.safeGo f v = true → (SchemaFull.go f v).isSome = true := by
  intro f
  induction f with
  | zero => intro v h; simp [SchemaFull.safeGo] at h
  | succ f ih =>
    intro v h
    cases v with
    | null => simp [SchemaFull.go]
    | undef => simp [SchemaFull.go]
    | bool b => simp [SchemaFull.go]
    | num n => simp [SchemaFull.go]
    | str s => simp [SchemaFull.go]
    | arr l =>
      simp only [SchemaFull.safeGo] at h
      simp only [SchemaFull.go]
      exact goBody_isSome (fun x => SchemaFull.go f x) (fun x => SchemaFull.safeGo f x) ih _ h
    | obj fs =>
      simp only [SchemaFull.safeGo] at h
      simp only [SchemaFull.go]
      exact goBody_isSome (fun x => SchemaFull.go f x) (fun x => SchemaFull.safeGo f x) ih _ h

theorem safeProp_isSome (v : JValue) (h : SchemaFull.safeProp v = true) :
    (SchemaFull.getCompactType v).isSome = true :=
  safeGo_go_isSome (jsize v) v h

theorem requiredOk_jsIncludes (schema : JValue) (k : String)
    (h : SchemaFull.requiredOk schema = true) :
    (jsIncludes (requiredOf schema) k).isSome = true := by
  unfold SchemaFull.requiredOk at h
  unfold requiredOf
  by_cases ht : truthy (field schema "required") = true
  · rw [if_pos ht]
    cases hv : field schema "required" with
    | arr l => simp [jsIncludes]
    | str s => simp [jsIncludes]
    | null => rw [hv] at ht; exact absurd ht (by simp [truthy])
    | undef => rw [hv] at ht; exact absurd ht (by simp [truthy])
    | bool b =>
      rw [hv] at h ht
      simp only [truthy] at ht
      simp [isArrB, isStrB, ht, truthy] at h
    | num n =>
      rw [hv] at h ht
      simp only [truthy] at ht
      simp [isArrB, isStrB, ht, truthy] at h
    | obj fs =>
      rw [hv] at h
      simp [isArrB, isStrB, truthy] at h
  · rw [if_neg ht]
    simp [jsIncludes]

theorem propsBranch_isSome (schema : JValue)
    (h : SchemaFull.safePropsBranch schema = true) :
    (SchemaFull.propsBranch schema).isSome = true := by
  unfold SchemaFull.safePropsBranch at h
  unfold SchemaFull.propsBranch
  split_ifs at h ⊢ with h1
  · simp
  · obtain ⟨hreq, hall⟩ := (Bool.and_eq_true _ _).mp h
    rw [Option.isSome_map']
    apply optMapM_isSome
    intro e he
    have hinc := requiredOk_jsIncludes schema e.1 hreq
    cases hj : jsIncludes (requiredOf schema) e.1 with
    | none => rw [hj] at hinc; simp at hinc
    | some b =>
      rw [Option.some_bind, Option.isSome_map']
      exact safeProp_isSome e.2 ((List.all_eq_true.mp hall) e he)

theorem rootBody_isSome (schema : JValue) (h : SchemaFull.safeRootBody schema = true) :
    (SchemaFull.rootBody schema).isSome = true := by
  unfold SchemaFull.safeRootBody at h
  unfold SchemaFull.rootBody
  by_cases h1 : (isStrEq (field schema "type") "array" && truthy (field schema "items")) = true
  · simp only [h1, if_true] at h ⊢
    by_cases h2 : isArrB (field schema "items") = true
    · simp only [h2, if_true] at h ⊢
      rw [Option.isSome_map']
      apply optMapM_isSome
      intro a ha
      exact safeProp_isSome a ((List.all_eq_true.mp h) a ha)
    · simp only [h2, Bool.false_eq_true, if_false] at h ⊢
      rw [Option.isSome_map']
      exact safeProp_isSome _ h
  · simp only [h1, Bool.false_eq_true, if_false] at h ⊢
    by_cases h3 : isArrB (field schema "allOf") = true
    · simp only [h3, if_true] at h ⊢
      cases hm : SchemaFull.mergeAllOfProperties (arrElems (field schema "allOf")) with
      | none => rw [hm] at h; simp at h
      | some merged =>
        rw [hm] at h
        replace h : (if merged.length > 0 then
            SchemaFull.requiredOk schema && merged.all (fun e => SchemaFull.safeProp e.2)
          else SchemaFull.safePropsBranch schema) = true := h
        rw [Option.some_bind]
        by_cases h4 : merged.length > 0
        · simp only [h4, if_true] at h ⊢
          obtain ⟨hreq, hall⟩ := (Bool.and_eq_true _ _).mp h
          rw [Option.isSome_map']
          apply optMapM_isSome
          intro e he
          have hinc := requiredOk_jsIncludes schema e.1 hreq
          cases hj : jsIncludes (requiredOf schema) e.1 with
          | none => rw [hj] at hinc; simp at hinc
          | some b =>
            rw [Option.some_bind, Option.isSome_map']
            exact safeProp_isSome e.2 ((List.all_eq_true.mp hall) e he)
        · simp only [h4, if_false] at h ⊢
          exact propsBranch_isSome _ h
    · simp only [h3, Bool.false_eq_true, if_false] at h ⊢
      exact propsBranch_isSome _ h

theorem safeSchema_isSome (s : JValue) (h : SchemaFull.safeSchema s = true) :
    (SchemaFull.jsonSchemaToXml s).isSome = true := by
  cases s with
  | null => simp [SchemaFull.jsonSchemaToXml]
  | undef => simp [SchemaFull.jsonSchemaToXml]
  | bool b => simp [SchemaFull.jsonSchemaToXml]
  | num n => simp [SchemaFull.jsonSchemaToXml]
  | str t => simp [SchemaFull.jsonSchemaToXml]
  | arr l =>
    simp only [SchemaFull.safeSchema] at h
    simp only [SchemaFull.jsonSchemaToXml]
    exact rootBody_isSome _ h
  | obj fs =>
    simp only [SchemaFull.safeSchema] at h
    simp only [SchemaFull.jsonSchemaToXml]
    exact rootBody_isSome _ h
/-! ## Claim theorems -/

/-- Claim C2: for the schema `{type:"object", properties:{...}, required:[...]}`
each `properties` entry is emitted in insertion order as its (escaped)
key, then `*` if the key is in `required` else `?`, then `:`, then its
encoded type; entries are joined by `", "` and wrapped in
`<schema></schema>`. -/
theorem c2_required_marker_encoding (props : List (String × JValue)) (req ts : List String)
    (hne : props ≠ [])
    (henc : optMapM (fun e => SchemaMetrics.getCompactType e.2) props = some ts) :
    SchemaMetrics.jsonSchemaToXml
        (.obj [("type", .str "object"), ("properties", .obj props),
               ("required", .arr (req.map .str))]) =
      some ("<schema>" ++ String.intercalate ", "
        ((props.zip ts).map (fun pe =>
          escapeXml pe.1.1 ++ (if pe.1.1 ∈ req then "*" else "?") ++ ":" ++ pe.2)) ++
        "</schema>") := by
  have hprops : props.length ≠ 0 := fun h => hne (List.length_eq_zero.mp h)
  simp only [SchemaMetrics.jsonSchemaToXml, SchemaMetrics.propsBranch, requiredOf, field, List.find?]
  simp [isStrEq, truthy, keysCount, entriesOf, hprops,
    propsOutput SchemaMetrics.getCompactType req props ts henc]

/-- Witness for C2 at the spec's example schema. -/
theorem c2_required_marker_encoding_witness :
    SchemaMetrics.jsonSchemaToXml
        (.obj [("type", .str "object"),
               ("properties", .obj [("a", .obj [("type", .str "string")]),
                                    ("b", .obj [("type", .str "number")])]),
               ("required", .arr [.str "a"])]) =
      some "<schema>a*:string, b?:number</schema>" := by
  have h := c2_required_marker_encoding
    [("a", .obj [("type", .str "string")]), ("b", .obj [("type", .str "number")])]
    ["a"] ["string", "number"] (List.cons_ne_nil _ _) (by decide)
  exact h.trans (by decide)

/-- Claim C4: `compressSchemaWithMetrics` returns
`reduction = round(max(0, (o - c)/o * 100))` (and `0` when `o = 0`), so
the reduction always lies in `[0, 100]`; the same holds for
`totalReduction` of `compressToolSchemas`.  `jsRound p q` is
`Math.round(p/q)`. -/
theorem c4_reduction_clamped :
    (∀ (v : JValue) (r : SchemaMetrics.SchemaCompressionResult),
      SchemaMetrics.compressSchemaWithMetrics v = some r →
      (r.reduction =
        (if 0 < r.originalTokens then
          jsRound (100 * max 0 ((r.originalTokens : Int) - r.compressedTokens)) r.originalTokens
        else 0) ∧ 0 ≤ r.reduction ∧ r.reduction ≤ 100)) ∧
    (∀ (tools : List SchemaMetrics.ToolDescriptor) (b : SchemaMetrics.BatchResult),
      SchemaMetrics.compressToolSchemas tools = some b →
      (b.totalReduction =
        (if 0 < b.originalTokens then
          jsRound (100 * max 0 ((b.originalTokens : Int) - b.compressedTokens)) b.originalTokens
        else 0) ∧ 0 ≤ b.totalReduction ∧ b.totalReduction ≤ 100)) := by
  constructor
  · intro v r h
    rw [SchemaMetrics.compressSchemaWithMetrics] at h
    cases hx : SchemaMetrics.jsonSchemaToXml v with
    | none => rw [hx] at h; simp at h
    | some compressed =>
      rw [hx] at h
      simp only [Option.map_some', Option.some.injEq] at h
      subst h
      exact reduction_formula _ _
  · intro tools b h
    rw [SchemaMetrics.compressToolSchemas] at h
    cases hx : optMapM (fun t =>
        (SchemaMetrics.compressSchemaWithMetrics t.inputSchema).map (fun r => (t.name, r))) tools with
    | none => rw [hx] at h; simp at h
    | some rs' =>
      rw [hx] at h
      simp only [Option.map_some', Option.some.injEq] at h
      subst h
      exact reduction_formula _ _

set_option maxRecDepth 100000 in
/-- Witness for C4 at a concrete schema (29 original tokens, 2
compressed tokens, 93 % reduction). -/
theorem c4_reduction_clamped_witness :
    SchemaMetrics.compressSchemaWithMetrics
        (.obj [("type", .str "object"),
               ("properties", .obj [("query", .obj [("type", .str "string")])]),
               ("required", .arr [.str "query"])]) =
      some ⟨"<schema>query*:string</schema>", 29, 2, 93⟩ ∧
    (0 : Int) ≤ 93 ∧ (93 : Int) ≤ 100 := by
  have hc : SchemaMetrics.compressSchemaWithMetrics
      (.obj [("type", .str "object"),
             ("properties", .obj [("query", .obj [("type", .str "string")])]),
             ("required", .arr [.str "query"])]) =
      some ⟨"<schema>query*:string</schema>", 29, 2, 93⟩ := by decide
  have h := (c4_reduction_clamped.1 _ _ hc).2
  exact ⟨hc, h.1, h.2⟩

/-- Claim C5: the batch wrapper returns the sum of the per-tool token
counts, a `totalReduction` computed from those sums (not an average of
per-tool reductions), and one compressed entry per input tool, in
order, carrying the tool's name. -/
theorem c5_batch_aggregation (tools : List SchemaMetrics.ToolDescriptor)
    (b : SchemaMetrics.BatchResult)
    (h : SchemaMetrics.compressToolSchemas tools = some b) :
    ∃ rs : List SchemaMetrics.SchemaCompressionResult,
      optMapM (fun t => SchemaMetrics.compressSchemaWithMetrics t.inputSchema) tools = some rs ∧
      b.originalTokens = (rs.map (fun r => r.originalTokens)).sum ∧
      b.compressedTokens = (rs.map (fun r => r.compressedTokens)).sum ∧
      b.totalReduction =
        (if 0 < b.originalTokens ∧ b.compressedTokens < b.originalTokens then
          jsRound (((b.originalTokens : Int) - b.compressedTokens) * 100) b.originalTokens
        else 0) ∧
      b.compressedTools =
        (tools.zip rs).map (fun p => ⟨p.1.name, p.2.compressed⟩) := by
  rw [SchemaMetrics.compressToolSchemas] at h
  cases hin : optMapM (fun t =>
      (SchemaMetrics.compressSchemaWithMetrics t.inputSchema).map (fun r => (t.name, r))) tools with
  | none => rw [hin] at h; simp at h
  | some rs' =>
    rw [hin] at h
    simp only [Option.map_some', Option.some.injEq] at h
    obtain ⟨rs, hrs, hshape⟩ := optMapM_pair_split _ tools rs' hin
    have hlen : rs.length = tools.length := optMapM_length _ tools rs hrs
    have hsnd : (tools.zip rs).map Prod.snd = rs :=
      List.map_snd_zip tools rs (le_of_eq hlen)
    have horig : (rs'.map (fun p => p.2.originalTokens)).sum =
        (rs.map (fun r => r.originalTokens)).sum := by
      rw [hshape]
      rw [List.map_map]
      have : ((fun p : String × SchemaMetrics.SchemaCompressionResult => p.2.originalTokens) ∘
          (fun p : SchemaMetrics.ToolDescriptor × SchemaMetrics.SchemaCompressionResult =>
            (p.1.name, p.2))) =
          (fun r : SchemaMetrics.SchemaCompressionResult => r.originalTokens) ∘ Prod.snd := rfl
      rw [this, ← List.map_map, hsnd]
    have hcomp : (rs'.map (fun p => p.2.compressedTokens)).sum =
        (rs.map (fun r => r.compressedTokens)).sum := by
      rw [hshape]
      rw [List.map_map]
      have : ((fun p : String × SchemaMetrics.SchemaCompressionResult => p.2.compressedTokens) ∘
          (fun p : SchemaMetrics.ToolDescriptor × SchemaMetrics.SchemaCompressionResult =>
            (p.1.name, p.2))) =
          (fun r : SchemaMetrics.SchemaCompressionResult => r.compressedTokens) ∘ Prod.snd := rfl
      rw [this, ← List.map_map, hsnd]
    subst h
    refine ⟨rs, hrs, ?_, ?_, ?_, ?_⟩
    · exact horig
    · exact hcomp
    · rfl
    · show rs'.map _ = _
      rw [hshape, List.map_map]
      rfl

set_option maxRecDepth 100000 in
/-- Witness for C5 with two tools: sums `29 = 29 + 0`, `8 = 2 + 6`, and
a total reduction of `72 = round(21/29*100)` computed from the sums. -/
theorem c5_batch_aggregation_witness :
    ∃ rs : List SchemaMetrics.SchemaCompressionResult,
      optMapM (fun t => SchemaMetrics.compressSchemaWithMetrics t.inputSchema)
          ([⟨"search", .obj [("type", .str "object"),
              ("properties", .obj [("query", .obj [("type", .str "string")])]),
              ("required", .arr [.str "query"])]⟩,
           ⟨"t", JValue.undef⟩] : List SchemaMetrics.ToolDescriptor) = some rs ∧
      (29 : Nat) = (rs.map (fun r => r.originalTokens)).sum ∧
      (8 : Nat) = (rs.map (fun r => r.compressedTokens)).sum ∧
      (72 : Int) = (if 0 < (29 : Nat) ∧ (8 : Nat) < (29 : Nat) then
          jsRound ((((29 : Nat) : Int) - ((8 : Nat) : Int)) * 100) ((29 : Nat) : Int)
        else 0) ∧
      ([⟨"search", "<schema>query*:string</schema>"⟩, ⟨"t", "<schema></schema>"⟩] :
          List SchemaMetrics.CompressedTool) =
        (([⟨"search", .obj [("type", .str "object"),
              ("properties", .obj [("query", .obj [("type", .str "string")])]),
              ("required", .arr [.str "query"])]⟩,
          ⟨"t", JValue.undef⟩] : List SchemaMetrics.ToolDescriptor).zip rs).map
          (fun p => ⟨p.1.name, p.2.compressed⟩) :=
  c5_batch_aggregation
    [⟨"search", .obj [("type", .str "object"),
        ("properties", .obj [("query", .obj [("type", .str "string")])]),
        ("required", .arr [.str "query"])]⟩,
     ⟨"t", JValue.undef⟩]
    ⟨[⟨"search", "<schema>query*:string</schema>"⟩, ⟨"t", "<schema></schema>"⟩], 72, 29, 8⟩
    (by decide)

/-- Claim C6: a tool whose `inputSchema` is absent (JavaScript
`undefined`) does not make `compressToolSchemas` throw: it compresses
to the empty-schema sentinel, and its token metrics (0 original tokens,
6 compressed tokens for the sentinel) still accumulate into the batch
sums. -/
theorem c6_absent_schema_graceful (ts : List SchemaMetrics.ToolDescriptor)
    (h : ∀ t ∈ ts, t.inputSchema = JValue.undef) :
    SchemaMetrics.compressToolSchemas ts =
      some ⟨ts.map (fun t => ⟨t.name, "<schema></schema>"⟩), 0, 0, 6 * ts.length⟩ := by
  rw [SchemaMetrics.compressToolSchemas, optMapM_undef_tools ts h]
  have h1 : (ts.map (fun t =>
      (t.name, (⟨"<schema></schema>", 0, 6, 0⟩ : SchemaMetrics.SchemaCompressionResult)))).map
        (fun p => p.2.originalTokens) = ts.map (fun _ => 0) := by
    rw [List.map_map]; rfl
  have h2 : (ts.map (fun t =>
      (t.name, (⟨"<schema></schema>", 0, 6, 0⟩ : SchemaMetrics.SchemaCompressionResult)))).map
        (fun p => p.2.compressedTokens) = ts.map (fun _ => 6) := by
    rw [List.map_map]; rfl
  have h3 : (ts.map (fun t =>
      (t.name, (⟨"<schema></schema>", 0, 6, 0⟩ : SchemaMetrics.SchemaCompressionResult)))).map
        (fun p => (⟨p.1, p.2.compressed⟩ : SchemaMetrics.CompressedTool)) =
      ts.map (fun t => ⟨t.name, "<schema></schema>"⟩) := by
    rw [List.map_map]; rfl
  simp only [Option.map_some', h1, h2, h3, sum_map_constNat, Nat.zero_mul, Option.some.injEq]
  simp

/-- Witness for C6 with two schema-less tools. -/
theorem c6_absent_schema_graceful_witness :
    SchemaMetrics.compressToolSchemas [⟨"t", JValue.undef⟩, ⟨"u", JValue.undef⟩] =
      some ⟨[⟨"t", "<schema></schema>"⟩, ⟨"u", "<schema></schema>"⟩], 0, 0, 12⟩ := by
  have h := c6_absent_schema_graceful [⟨"t", JValue.undef⟩, ⟨"u", JValue.undef⟩]
    (by
      intro t ht
      cases ht with
      | head => rfl
      | tail _ ht2 =>
        cases ht2 with
        | head => rfl
        | tail _ ht3 => cases ht3)
  exact h.trans (by decide)

/-- Claim C7: a root schema with `type == "array"` and truthy `items`
bypasses the parameter-list branch: a single `items` node yields
`<schema>array[...]</schema>`, an `items` sequence yields
`<schema>tuple[t1,t2,...]</schema>`. -/
theorem c7_root_array_bypass :
    (∀ (es : List (String × JValue)) (t : String),
      isStrEq (field (JValue.obj es) "type") "array" = true →
      truthy (field (JValue.obj es) "items") = true →
      isArrB (field (JValue.obj es) "items") = false →
      SchemaFull.getCompactType (field (JValue.obj es) "items") = some t →
      SchemaFull.jsonSchemaToXml (.obj es) = some ("<schema>array[" ++ t ++ "]</schema>")) ∧
    (∀ (es : List (String × JValue)) (l : List JValue) (ts : List String),
      isStrEq (field (JValue.obj es) "type") "array" = true →
      field (JValue.obj es) "items" = .arr l →
      optMapM SchemaFull.getCompactType l = some ts →
      SchemaFull.jsonSchemaToXml (.obj es) =
        some ("<schema>tuple[" ++ String.intercalate "," ts ++ "]</schema>")) := by
  constructor
  · intro es t harr hitems hnarr henc
    simp [SchemaFull.jsonSchemaToXml, SchemaFull.rootBody, harr, hitems, hnarr, henc]
  · intro es l ts harr hitems henc
    simp [SchemaFull.jsonSchemaToXml, SchemaFull.rootBody, harr, hitems, truthy, isArrB, arrElems, henc]

/-- Witness for C7: the spec's array example and a tuple example. -/
theorem c7_root_array_bypass_witness :
    SchemaFull.jsonSchemaToXml
        (.obj [("type", .str "array"), ("items", .obj [("type", .str "string")])]) =
      some "<schema>array[string]</schema>" ∧
    SchemaFull.jsonSchemaToXml
        (.obj [("type", .str "array"),
               ("items", .arr [.obj [("type", .str "string")], .obj [("type", .str "number")]])]) =
      some "<schema>tuple[string,number]</schema>" := by
  constructor
  · exact (c7_root_array_bypass.1 [("type", .str "array"), ("items", .obj [("type", .str "string")])]
      "string" rfl rfl rfl (by decide)).trans (by decide)
  · exact (c7_root_array_bypass.2 [("type", .str "array"),
      ("items", .arr [.obj [("type", .str "string")], .obj [("type", .str "number")]])]
      [.obj [("type", .str "string")], .obj [("type", .str "number")]]
      ["string", "number"] rfl rfl (by decide)).trans (by decide)

/-- Claim C8: a root `allOf` merges the members' `properties` maps in
member order with last-write-wins on key collisions, is encoded as
`merged{...}` inside `<schema></schema>`, and takes the `*`/`?` markers
from the ROOT `required` set. -/
theorem c8_allof_merge_lastwritewins :
    (∀ (members : List JValue) (req ts : List String) (merged : List (String × JValue)),
      SchemaFull.mergeAllOfProperties members = some merged →
      merged ≠ [] →
      optMapM (fun e => SchemaFull.getCompactType e.2) merged = some ts →
      SchemaFull.jsonSchemaToXml
          (.obj [("allOf", .arr members), ("required", .arr (req.map .str))]) =
        some ("<schema>merged\x7b" ++ String.intercalate ", "
          ((merged.zip ts).map (fun pe =>
            escapeXml pe.1.1 ++ (if pe.1.1 ∈ req then "*" else "?") ++ ":" ++ pe.2)) ++
          "\x7d</schema>")) ∧
    (∀ es1 es2 : List (String × JValue),
      SchemaFull.mergeAllOfProperties
          [.obj [("properties", .obj es1)], .obj [("properties", .obj es2)]] =
        some (assignEntries (assignEntries [] es1) es2)) ∧
    (∀ (es1 es2 : List (String × JValue)) (k : String),
      (es1.map Prod.fst).Nodup → (es2.map Prod.fst).Nodup →
      lookupVal (assignEntries (assignEntries [] es1) es2) k =
        (lookupVal es2 k).or (lookupVal es1 k)) := by
  refine ⟨?_, ?_, ?_⟩
  · intro members req ts merged hmerge hne henc
    have hlen : 0 < merged.length := List.length_pos.mpr hne
    simp only [SchemaFull.jsonSchemaToXml, SchemaFull.rootBody, requiredOf, field, List.find?]
    simp [isStrEq, isArrB, arrElems, truthy, hmerge, hlen,
      propsOutput SchemaFull.getCompactType req merged ts henc]
  · intro es1 es2
    simp [SchemaFull.mergeAllOfProperties, SchemaFull.mergeAllOfStep, field, List.find?,
      truthy, entriesOf, assignEntries]
  · intro es1 es2 k h1 h2
    rw [lookupVal_assignEntries es2 (assignEntries [] es1) k h2,
      lookupVal_assignEntries es1 [] k h1]
    simp [lookupVal]

/-- Witness for C8 with a colliding key: the later member's type wins
(`a` becomes `number`), the marker comes from the root `required`. -/
theorem c8_allof_merge_lastwritewins_witness :
    SchemaFull.jsonSchemaToXml
        (.obj [("allOf", .arr
          [.obj [("properties", .obj [("a", .obj [("type", .str "string")])])],
           .obj [("properties", .obj [("a", .obj [("type", .str "number")]),
                                      ("b", .obj [("type", .str "boolean")])])]]),
          ("required", .arr [.str "a"])]) =
      some "<schema>merged\x7ba*:number, b?:boolean\x7d</schema>" := by
  have h := c8_allof_merge_lastwritewins.1
    [.obj [("properties", .obj [("a", .obj [("type", .str "string")])])],
     .obj [("properties", .obj [("a", .obj [("type", .str "number")]),
                                ("b", .obj [("type", .str "boolean")])])]]
    ["a"] ["number", "boolean"]
    [("a", .obj [("type", .str "number")]), ("b", .obj [("type", .str "boolean")])]
    rfl (by simp) (by decide)
  exact h.trans (by decide)

/-- Claim C9: an enum of at most 3 values renders the literal (escaped)
values joined by `|` inside `enum(...)`; an enum with more than 3
values renders the bare token `enum`, with no count — in both encoder
variants (the node must dispatch to the enum branch: its `type` is not
`"array"`, and the full variant requires no `const`). -/
theorem c9_enum_display_threshold (es : List (String × JValue)) (vs : List String)
    (harr : isStrEq (field (JValue.obj es) "type") "array" = false)
    (hconst : isUndef (field (JValue.obj es) "const") = true)
    (henum : field (JValue.obj es) "enum" = .arr (vs.map .str)) :
    SchemaFull.getCompactType (.obj es) =
      some (if vs.length ≤ 3
        then "enum(" ++ String.intercalate "|" (vs.map escapeXml) ++ ")"
        else "enum") ∧
    SchemaMetrics.getCompactType (.obj es) =
      some (if vs.length ≤ 3
        then "enum(" ++ String.intercalate "|" (vs.map escapeXml) ++ ")"
        else "enum") :=
  ⟨full_enum_branch es vs harr hconst henum, metrics_enum_branch es vs harr henum⟩

/-- Witness for C9 on both sides of the threshold. -/
theorem c9_enum_display_threshold_witness :
    SchemaFull.getCompactType (.obj [("enum", .arr [.str "json", .str "xml", .str "csv"])]) =
      some "enum(json|xml|csv)" ∧
    SchemaMetrics.getCompactType
        (.obj [("enum", .arr [.str "a", .str "b", .str "c", .str "d"])]) = some "enum" := by
  constructor
  · exact ((c9_enum_display_threshold [("enum", .arr [.str "json", .str "xml", .str "csv"])]
      ["json", "xml", "csv"] rfl rfl rfl).1).trans (by decide)
  · exact ((c9_enum_display_threshold [("enum", .arr [.str "a", .str "b", .str "c", .str "d"])]
      ["a", "b", "c", "d"] rfl rfl rfl).2).trans (by decide)

/-- Claim C10: an empty `enum` sequence satisfies the `≤ 3` display
threshold and joins zero values, producing exactly `"enum()"` (not the
bare token `"enum"`), in both encoder variants and in an emitted
parameter list — a shape the spec's output grammar does not produce,
since `enum(...)` requires at least one value. -/
theorem c10_empty_enum_renders_empty_parens :
    SchemaFull.getCompactType (.obj [("enum", .arr [])]) = some "enum()" ∧
    SchemaMetrics.getCompactType (.obj [("enum", .arr [])]) = some "enum()" ∧
    SchemaFull.jsonSchemaToXml
        (.obj [("properties", .obj [("x", .obj [("enum", .arr [])])])]) =
      some "<schema>x?:enum()</schema>" ∧
    "enum()" ≠ "enum" := by
  refine ⟨by decide, by decide, by decide, by decide⟩

/-- Claim C3, counterexample: a string property carrying a `pattern` is
emitted with the pattern raw — the output contains a `<` outside the
fixed `<schema>`/`</schema>` tags. -/
theorem c3_pattern_not_escaped_counterexample :
    SchemaFull.jsonSchemaToXml
        (.obj [("properties",
          .obj [("p", .obj [("type", .str "string"), ("pattern", .str "<")])])]) =
      some ("<schema>" ++ "p?:string(/</)" ++ "</schema>") ∧
    "p?:string(/</)".data.contains '<' = true := by
  exact ⟨by decide, by decide⟩

/-- Claim C3, amended: property keys, enum values and string defaults
ARE entity-escaped before emission (and `escapeXml` output is free of
raw `< > " '` with `&` only opening one of its five entity
references); the guarantee does not extend to `pattern`, which the
counterexample shows is embedded raw. -/
theorem c3_keys_enums_defaults_escaped :
    (∀ s : String, xmlSafe (escapeXml s).data = true) ∧
    (∀ (k : String) (vs : List String),
      SchemaFull.jsonSchemaToXml
          (.obj [("properties", .obj [(k, .obj [("enum", .arr (vs.map .str))])])]) =
        some ("<schema>" ++ escapeXml k ++ "?:" ++
          (if vs.length ≤ 3
            then "enum(" ++ String.intercalate "|" (vs.map escapeXml) ++ ")"
            else "enum") ++ "</schema>")) ∧
    (∀ (k d : String),
      SchemaFull.jsonSchemaToXml
          (.obj [("properties",
            .obj [(k, .obj [("type", .str "string"), ("default", .str d)])])]) =
        some ("<schema>" ++ escapeXml k ++ "?:string=\"" ++ escapeXml d ++ "\"</schema>")) := by
  refine ⟨fun s => xmlSafe_escapeXml s, ?_, ?_⟩
  · intro k vs
    have henc := full_enum_branch [("enum", .arr (vs.map .str))] vs rfl rfl rfl
    simp only [SchemaFull.jsonSchemaToXml, SchemaFull.rootBody, SchemaFull.propsBranch, requiredOf, field, List.find?]
    simp [isStrEq, isArrB, truthy, keysCount, entriesOf, optMapM, jsIncludes, henc,
      intercalate_singleton]
    apply String.ext
    have d1 : ("?:" : String).data = ['?', ':'] := rfl
    have d2 : ("?" : String).data = ['?'] := rfl
    have d3 : ((":") : String).data = [':'] := rfl
    simp [String.data_append, d1, d2, d3]
  · intro k d
    have henc := full_string_default_enc d
    simp only [SchemaFull.jsonSchemaToXml, SchemaFull.rootBody, SchemaFull.propsBranch, requiredOf, field, List.find?]
    simp [isStrEq, isArrB, truthy, keysCount, entriesOf, optMapM, jsIncludes, henc,
      intercalate_singleton]
    apply String.ext
    have d1 : ("?:string=\"" : String).data = ['?', ':', 's', 't', 'r', 'i', 'n', 'g', '=', '"'] := rfl
    have d2 : ("?" : String).data = ['?'] := rfl
    have d3 : ((":") : String).data = [':'] := rfl
    have d4 : ("string" : String).data = ['s', 't', 'r', 'i', 'n', 'g'] := rfl
    have d5 : ("=\"" : String).data = ['=', '"'] := rfl
    have d6 : ("\"" : String).data = ['"'] := rfl
    have d7 : ("\"</schema>" : String).data =
      ['"', '<', '/', 's', 'c', 'h', 'e', 'm', 'a', '>'] := rfl
    have d8 : ("</schema>" : String).data =
      ['<', '/', 's', 'c', 'h', 'e', 'm', 'a', '>'] := rfl
    simp [String.data_append, d1, d2, d3, d4, d5, d6, d7, d8]

/-- C1 counterexample: the compressor is not total on malformed input.
A property with a null `const` makes `getCompactType` throw
(`prop.const.toString()` on `null`); a null `enum` entry throws in the
rich encoder's per-entry `v.toString()`; a non-string `enum` entry
throws in the metrics encoder, whose enum branch maps entries straight
through `escapeXml`, a chain of string `.replace` calls; and the root
`schemaToCompactString` propagates the throw instead of degrading to
the sentinel. -/
theorem c1_totality_counterexample :
    SchemaFull.getCompactType (.obj [("const", .null)]) = none ∧
    SchemaFull.getCompactType (.obj [("enum", .arr [.null])]) = none ∧
    SchemaMetrics.getCompactType (.obj [("enum", .arr [.num 5])]) = none ∧
    SchemaFull.jsonSchemaToXml
      (.obj [("properties", .obj [("p", .obj [("const", .null)])])]) = none := by
  refine ⟨by decide, by decide, by decide, by decide⟩

/-- C1 (amended): on the safe domain — no null `const`, string-only
enum entries, `required` absent or an array/string, recursively — both
`getCompactType` and `jsonSchemaToXml` of the rich encoder always
return a string; in particular every primitive (non-object) property
node and every primitive root schema is safe, degrading to `"any"` or
the `"<schema></schema>"` sentinel. -/
theorem c1_totality_on_safe_inputs :
    (∀ v : JValue, SchemaFull.safeProp v = true →
      (SchemaFull.getCompactType v).isSome = true) ∧
    (∀ s : JValue, SchemaFull.safeSchema s = true →
      (SchemaFull.jsonSchemaToXml s).isSome = true) :=
  ⟨safeProp_isSome, safeSchema_isSome⟩

theorem c1_totality_on_safe_inputs_witness :
    SchemaFull.safeProp (JValue.num 3) = true ∧
    (SchemaFull.getCompactType (JValue.num 3)).isSome = true ∧
    SchemaFull.safeSchema (JValue.obj [("properties", JValue.obj [("f", JValue.num 3)])]) = true ∧
    (SchemaFull.jsonSchemaToXml
      (JValue.obj [("properties", JValue.obj [("f", JValue.num 3)])])).isSome = true :=
  ⟨by decide, c1_totality_on_safe_inputs.1 _ (by decide), by decide,
    c1_totality_on_safe_inputs.2 _ (by decide)⟩
